import Mathlib

/-!
Shallow embedding of the EdgeAI browser extension's search-orchestration and
content-extraction pipeline (background service worker `background.js` and the
content script), together with theorems checking the natural-language
specification against it.

Modelling conventions:
- JS arrays become `List`, JS objects become structures; an optional JS object
  property that the code never writes is modelled as an `Option` field holding
  `none`.
- `[...new Set(l)]` (insertion-ordered set spread) becomes `dedupFirst`, which
  keeps the first occurrence of each element.
- Network responses (backend URL lists, HTML bodies) and browser effects
  (tab creation, the CONTENT_EXTRACTED signal) are inputs: functions receive
  them as explicit parameters or as a `HarvestEnv` oracle.
- Wall-clock reads (`Date.now()`) are modelled by an explicit `now : Nat`.
- All definitions are structurally recursive so that concrete runs reduce
  inside the kernel; where the JS loop advances by a variable amount the
  recursion is driven by an explicit character budget (`fuel`) bounded by the
  input length.
-/

namespace EdgeAI

/-! ## Generic list helpers used by the embedding -/

/-- Worker for `dedupFirst`: `seen` collects the values already emitted. -/
def dedupFirstAux [DecidableEq α] (seen : List α) : List α → List α
  | [] => []
  | a :: as =>
    if a ∈ seen then dedupFirstAux seen as
    else a :: dedupFirstAux (a :: seen) as

/-- Deduplication keeping the first occurrence of each element, in order.
This is the semantics of the JS idiom `[...new Set(l)]`: a JS `Set` iterates
in insertion order, so spreading it lists first occurrences. -/
def dedupFirst [DecidableEq α] (l : List α) : List α :=
  dedupFirstAux [] l

/-- Index of the first occurrence of `u` in a list (list length when absent). -/
def firstIdx [DecidableEq α] (u : α) : List α → Nat
  | [] => 0
  | a :: as => if a = u then 0 else firstIdx u as + 1

/-- Substring test on character lists: does `pat` occur contiguously in `l`?
Models JS `String.prototype.includes`. -/
def listContainsSub (pat l : List Char) : Bool :=
  l.tails.any (fun t => pat.isPrefixOf t)

/-- JS `s.includes(pat)` on our `String` model. -/
def strContains (s pat : String) : Bool :=
  listContainsSub pat.data s.data

/-! ## Data model of `background.js`

Structures mirror the object literals that the service worker builds. -/

/-- Constant `MAX_PAGES_PER_SEARCH = 3` from `background.js`. -/
def MAX_PAGES_PER_SEARCH : Nat := 3

/-- Payload of a `CONTENT_EXTRACTED` message (`request.data` in
`openAndExtractContent`). JS falsiness of a missing/empty `title` or
`content` is modelled by the empty string, of a missing `wordCount` by `0`. -/
structure ExtractData where
  title : String
  content : String
  wordCount : Nat
deriving DecidableEq, Repr

/-- A successful harvest record, the object resolved by
`openAndExtractContent` (`background.js` lines 333–339). -/
structure Source where
  url : String
  title : String
  content : String
  extractedAt : Nat
  wordCount : Nat
deriving DecidableEq, Repr

/-- The `searchResults` object built by `handleSearchRequest`
(`background.js` line 266): `{ searchId, query, timestamp, sources, status }`.
The repository README documents the shape with an optional `completedAt?`
property; the literal never writes it, so the field is modelled as an
`Option` that the code leaves at `none`. -/
structure SearchResults where
  searchId : String
  query : String
  timestamp : Nat
  sources : List Source
  status : String
  completedAt : Option Nat
deriving DecidableEq, Repr

/-- Reply shape of `handleSearchRequest` on its success path
(`background.js` line 267). -/
structure SearchResponse where
  success : Bool
  searchId : String
  resultCount : Nat
  results : SearchResults
deriving DecidableEq, Repr

/-- One entry of the `results` list built by `handleSearchOnly`
(`background.js` lines 209–214). -/
structure SearchOnlyItem where
  title : String
  url : String
  snippet : String
  source : String
deriving DecidableEq, Repr

/-- Reply shape of `handleSearchOnly` on its success path
(`background.js` line 216). -/
structure SearchOnlyResponse where
  success : Bool
  searchId : String
  resultCount : Nat
  results : List SearchOnlyItem
deriving DecidableEq, Repr

/-! ## Page harvester (`openAndExtractContent`) -/

/-- Browser-side oracle for one harvest attempt: what `chrome.tabs.create`
does for a URL (`.ok tabId`, or `.error` when opening throws), and whether a
`CONTENT_EXTRACTED` message from that tab arrives before the 25 s timer
fires (`some data`) or not (`none`). -/
structure HarvestEnv where
  createTab : String → Except String Nat
  signalBeforeTimeout : Nat → Option ExtractData

/-- Trace of one harvest attempt: the settled promise value plus the tabs the
attempt created and the tabs it removed, up to settlement. -/
structure HarvestRun where
  outcome : Except String Source
  createdTabs : List Nat
  removedTabs : List Nat
deriving Repr

/-- Shallow embedding of `openAndExtractContent` (`background.js` lines
316–349). Paths: `chrome.tabs.create` throws → the catch block finds
`tabId` still null, removes nothing and rejects; the tab opens and its
`CONTENT_EXTRACTED` arrives first → the listener clears the timer, removes
the tab and resolves `{url, title: data.title || url, content:
data.content || '', extractedAt: now, wordCount: data.wordCount || 0}`;
otherwise the timer fires, removes the tab and rejects
`Timeout extracting <url>`. -/
def openAndExtractContent (env : HarvestEnv) (now : Nat) (url : String) :
    HarvestRun :=
  match env.createTab url with
  | .error e => { outcome := .error e, createdTabs := [], removedTabs := [] }
  | .ok tabId =>
    match env.signalBeforeTimeout tabId with
    | some data =>
      { outcome := .ok
          { url := url
            title := if data.title = "" then url else data.title
            content := data.content
            extractedAt := now
            wordCount := data.wordCount }
        createdTabs := [tabId]
        removedTabs := [tabId] }
    | none =>
      { outcome := .error ("Timeout extracting " ++ url)
        createdTabs := [tabId]
        removedTabs := [tabId] }

/-- Settled promise value of one harvest attempt. -/
def harvestResult (env : HarvestEnv) (now : Nat) (url : String) :
    Except String Source :=
  (openAndExtractContent env now url).outcome

/-- Does the harvest attempt for `url` fulfill (as opposed to reject)? -/
def harvestSucceeds (env : HarvestEnv) (now : Nat) (url : String) : Bool :=
  (harvestResult env now url).toOption.isSome

/-! ## Search orchestration (`handleSearchRequest`, `handleSearchOnly`) -/

/-- URL aggregation as performed at `background.js` lines 253–254:
`[...new Set([...wikipediaUrls, ...duckduckgoUrls])].slice(0, budget)` —
concatenate in adapter-call order, keep first occurrences, truncate. -/
def aggregateUrls (wikipediaUrls duckduckgoUrls : List String)
    (budget : Nat) : List String :=
  (dedupFirst (wikipediaUrls ++ duckduckgoUrls)).take budget

/-- Shallow embedding of `handleSearchRequest` (`background.js` lines
246–271), generalised over the page budget which the source inlines as
`MAX_PAGES_PER_SEARCH` (the README documents it as the configurable
page-count knob). The two backend URL lists are the adapters' settled
results (each adapter catches its own failures and yields `[]`), `env`
answers the per-URL harvest attempts, and `now` is the wall clock at
finalization. `Promise.allSettled` keeps launch order, and the collection
loop pushes exactly the fulfilled values, hence `filterMap`. -/
def handleSearchRequestWith (budget : Nat)
    (wikipediaUrls duckduckgoUrls : List String) (env : HarvestEnv)
    (query searchId : String) (now : Nat) : SearchResponse :=
  let allUrls := dedupFirst (wikipediaUrls ++ duckduckgoUrls)
  let urlsToOpen := allUrls.take budget
  let sources := urlsToOpen.filterMap
    (fun url => (harvestResult env now url).toOption)
  { success := true
    searchId := searchId
    resultCount := sources.length
    results :=
      { searchId := searchId
        query := query
        timestamp := now
        sources := sources
        status := "completed"
        completedAt := none } }

/-- Code's `handleSearchRequest`, with the budget fixed to
`MAX_PAGES_PER_SEARCH` as at `background.js` line 254. -/
def handleSearchRequest (wikipediaUrls duckduckgoUrls : List String)
    (env : HarvestEnv) (query searchId : String) (now : Nat) :
    SearchResponse :=
  handleSearchRequestWith MAX_PAGES_PER_SEARCH wikipediaUrls duckduckgoUrls
    env query searchId now

/-- Shallow embedding of `handleSearchOnly` (`background.js` lines 201–220):
dedups the concatenated backend lists (no `slice`!), then annotates every
URL with `source: url.includes('wikipedia') ? 'wikipedia' : 'duckduckgo'`. -/
def handleSearchOnly (wikipediaUrls duckduckgoUrls : List String)
    (searchId : String) : SearchOnlyResponse :=
  let allUrls := dedupFirst (wikipediaUrls ++ duckduckgoUrls)
  let results := allUrls.map (fun url =>
    { title := url
      url := url
      snippet := "Source found via web search"
      source := if strContains url "wikipedia" then "wikipedia"
                else "duckduckgo" : SearchOnlyItem })
  { success := true
    searchId := searchId
    resultCount := results.length
    results := results }

/-! ## Text cleaning (content script, `cleanText`)

The content script cleans extracted text with
`text.replace(/\s+/g, ' ').replace(/ {2,}/g, ' ').trim()
     .replace(/[\x00-\x08\x0B\x0C\x0E-\x1F\x7F]/g, '')`. -/

/-- Characters matched by the JS regex class `\s` (and removed from string
ends by `String.prototype.trim`): tab, LF, VT, FF, CR, space, NBSP, Ogham
space mark, the U+2000–U+200A range, LS, PS, NNBSP, MMSP, ideographic space
and the BOM. -/
def isJsWhitespace (c : Char) : Bool :=
  let n := c.toNat
  n = 9 || n = 10 || n = 11 || n = 12 || n = 13 || n = 32 || n = 160 ||
    n = 5760 || (8192 ≤ n && n ≤ 8202) || n = 8232 || n = 8233 ||
    n = 8239 || n = 8287 || n = 12288 || n = 65279

/-- Characters matched by `[\x00-\x08\x0B\x0C\x0E-\x1F\x7F]`, the class the
final `replace` of `cleanText` deletes. -/
def isRemovedControl (c : Char) : Bool :=
  let n := c.toNat
  n ≤ 8 || n = 11 || n = 12 || (14 ≤ n && n ≤ 31) || n = 127

/-- Is the first character of `l` JS whitespace? -/
def headIsWs : List Char → Bool
  | [] => false
  | d :: _ => isJsWhitespace d

/-- Is the first character of `l` a plain space? -/
def headIsSpace : List Char → Bool
  | [] => false
  | d :: _ => d = ' '

/-- Effect of `.replace(/\s+/g, ' ')`: every maximal run of JS whitespace
becomes a single plain space. A whitespace character followed by more
whitespace belongs to a run whose single output space is emitted at the
run's last character. -/
def collapseWhitespace : List Char → List Char
  | [] => []
  | c :: cs =>
    if isJsWhitespace c then
      if headIsWs cs then collapseWhitespace cs
      else ' ' :: collapseWhitespace cs
    else c :: collapseWhitespace cs

/-- Effect of `.replace(/ {2,}/g, ' ')`: every maximal run of two or more
plain spaces becomes a single space (emitted at the run's last character);
single spaces do not match the pattern and are copied. -/
def collapseDoubleSpaces : List Char → List Char
  | [] => []
  | c :: cs =>
    if c = ' ' then
      if headIsSpace cs then collapseDoubleSpaces cs
      else ' ' :: collapseDoubleSpaces cs
    else c :: collapseDoubleSpaces cs

/-- Effect of `String.prototype.trim`: strip JS whitespace from both ends. -/
def jsTrim (l : List Char) : List Char :=
  ((l.dropWhile isJsWhitespace).reverse.dropWhile isJsWhitespace).reverse

/-- Effect of `.replace(/[\x00-\x08\x0B\x0C\x0E-\x1F\x7F]/g, '')`. -/
def removeControlChars (l : List Char) : List Char :=
  l.filter (fun c => !(isRemovedControl c))

/-- Shallow embedding of the content script's `cleanText` (content script
lines 812–818): whitespace collapse, double-space collapse, trim, then
control-character removal — in that order. -/
def cleanText (s : String) : String :=
  String.mk (removeControlChars (jsTrim
    (collapseDoubleSpaces (collapseWhitespace s.data))))

/-! ## Normal-form infrastructure for `cleanText` -/

/-- Two adjacent characters are not both JS whitespace. -/
def WsApart (a b : Char) : Prop :=
  isJsWhitespace a = false ∨ isJsWhitespace b = false

/-- Normal form reached after `\s+` collapsing: every whitespace character
is a plain space and no two whitespace characters are adjacent. -/
def SpaceNormal (l : List Char) : Prop :=
  (∀ c ∈ l, isJsWhitespace c = true → c = ' ') ∧ List.Chain' WsApart l

/-! ## Adapter B URL extraction (`extractUrlsFromDDGLite`, `searchDuckDuckGo`) -/

/-- Value of an ASCII hex digit, or `none` (code points 0-9, A-F, a-f). -/
def hexDigit? (c : Char) : Option Nat :=
  let n := c.toNat
  if 48 ≤ n ∧ n ≤ 57 then some (n - 48)
  else if 65 ≤ n ∧ n ≤ 70 then some (n - 55)
  else if 97 ≤ n ∧ n ≤ 102 then some (n - 87)
  else none

/-- Is `b` a UTF-8 continuation byte (`10xxxxxx`)? -/
def isContinuationByte (b : Nat) : Bool :=
  128 ≤ b && b ≤ 191

/-- Shallow embedding of JS `decodeURIComponent`: plain characters are
copied; each `%XX` escape is decoded and, for a lead byte ≥ 0x80, the UTF-8
continuation escapes that must follow are consumed and combined; a
malformed escape or an invalid, overlong, surrogate or out-of-range
sequence throws `URIError`, modelled as `none`. -/
def decodeURIComponentList : List Char → Option (List Char)
  | [] => some []
  | '%' :: h1 :: h2 :: rest =>
    match hexDigit? h1, hexDigit? h2 with
    | some d1, some d2 =>
      let b := 16 * d1 + d2
      if b < 128 then
        (decodeURIComponentList rest).map (fun t => Char.ofNat b :: t)
      else if 192 ≤ b && b ≤ 223 then
        match rest with
        | '%' :: h3 :: h4 :: rest2 =>
          match hexDigit? h3, hexDigit? h4 with
          | some d3, some d4 =>
            let b2 := 16 * d3 + d4
            if isContinuationByte b2 then
              let v := (b - 192) * 64 + (b2 - 128)
              if 128 ≤ v then
                (decodeURIComponentList rest2).map
                  (fun t => Char.ofNat v :: t)
              else none
            else none
          | _, _ => none
        | _ => none
      else if 224 ≤ b && b ≤ 239 then
        match rest with
        | '%' :: h3 :: h4 :: '%' :: h5 :: h6 :: rest2 =>
          match hexDigit? h3, hexDigit? h4, hexDigit? h5, hexDigit? h6 with
          | some d3, some d4, some d5, some d6 =>
            let b2 := 16 * d3 + d4
            let b3 := 16 * d5 + d6
            if isContinuationByte b2 && isContinuationByte b3 then
              let v := (b - 224) * 4096 + (b2 - 128) * 64 + (b3 - 128)
              if 2048 ≤ v && !(55296 ≤ v && v ≤ 57343) then
                (decodeURIComponentList rest2).map
                  (fun t => Char.ofNat v :: t)
              else none
            else none
          | _, _, _, _ => none
        | _ => none
      else if 240 ≤ b && b ≤ 244 then
        match rest with
        | '%' :: h3 :: h4 :: '%' :: h5 :: h6 :: '%' :: h7 :: h8 :: rest2 =>
          match hexDigit? h3, hexDigit? h4, hexDigit? h5, hexDigit? h6,
              hexDigit? h7, hexDigit? h8 with
          | some d3, some d4, some d5, some d6, some d7, some d8 =>
            let b2 := 16 * d3 + d4
            let b3 := 16 * d5 + d6
            let b4 := 16 * d7 + d8
            if isContinuationByte b2 && isContinuationByte b3 &&
                isContinuationByte b4 then
              let v := (b - 240) * 262144 + (b2 - 128) * 4096 +
                (b3 - 128) * 64 + (b4 - 128)
              if 65536 ≤ v && v ≤ 1114111 then
                (decodeURIComponentList rest2).map
                  (fun t => Char.ofNat v :: t)
              else none
            else none
          | _, _, _, _, _, _ => none
        | _ => none
      else none
    | _, _ => none
  | '%' :: _ => none
  | c :: rest => (decodeURIComponentList rest).map (fun t => c :: t)

/-- Case-insensitive test for the literal `uddg=` at the head of `l` (the
regex `/uddg=([^&"']+)/gi` runs with the `i` flag). -/
def uddgKeyAt : List Char → Bool
  | c1 :: c2 :: c3 :: c4 :: c5 :: _ =>
    c1.toLower = 'u' && c2.toLower = 'd' && c3.toLower = 'd' &&
      c4.toLower = 'g' && c5 = '='
  | _ => false

/-- Characters admitted by the capture class `[^&"']`. -/
def isCaptureChar (c : Char) : Bool :=
  !(c = '&' || c = '"' || c = '\'')

/-- Worker mirroring the `while ((match = uddgRegex.exec(html)) !== null)`
loop of `extractUrlsFromDDGLite`: at a `uddg=` key followed by a nonempty
capture the scanner emits the capture and resumes after it (the regex
`lastIndex`); otherwise it advances one character. The `fuel` argument only
drives the structural recursion; `scanUddg` passes the input length, which
the per-step consumption of at least one character never exceeds. -/
def scanUddgAux : Nat → List Char → List (List Char)
  | 0, _ => []
  | _, [] => []
  | fuel + 1, c :: rest =>
    if uddgKeyAt (c :: rest) then
      let afterKey := rest.drop 4
      let capture := afterKey.takeWhile isCaptureChar
      if capture.isEmpty then scanUddgAux fuel rest
      else capture :: scanUddgAux fuel (afterKey.drop capture.length)
    else scanUddgAux fuel rest

/-- All captures of `/uddg=([^&"']+)/gi` over `html`, in match order. -/
def scanUddg (html : List Char) : List (List Char) :=
  scanUddgAux html.length html

/-- Shallow embedding of `extractUrlsFromDDGLite` (`background.js` lines
298–311): collect every `uddg=([^&"']+)` capture, URL-decode it (a decode
throw is caught and the capture skipped), keep those that start with
`http` and do not contain `duckduckgo.com`, then dedup via
`[...new Set(urls)]`. -/
def extractUrlsFromDDGLite (html : String) : List String :=
  let urls := (scanUddg html.data).filterMap (fun m =>
    match decodeURIComponentList m with
    | some decoded =>
      if "http".data.isPrefixOf decoded &&
          !(listContainsSub "duckduckgo.com".data decoded) then
        some (String.mk decoded)
      else none
    | none => none)
  dedupFirst urls

/-- Pure part of `searchDuckDuckGo` (`background.js` lines 288–296) given
the fetched response: a non-ok status — or a thrown fetch, both modelled by
`ok = false` — yields `[]`; otherwise the extracted URLs truncated to 3. -/
def searchDuckDuckGo (ok : Bool) (html : String) : List String :=
  if ok then (extractUrlsFromDDGLite html).take 3 else []

/-- Does `html` contain a case-insensitive occurrence of `uddg=`? -/
def hasUddgKey (html : String) : Bool :=
  html.data.tails.any uddgKeyAt

/-! ## Content selection (content script, `extractMainContent`) -/

/-- Abstract view of a loaded page for `extractMainContent`:
`selectorText sel` is the visible text that `extractTextFromElement
(document.querySelector(sel))` would produce (or `none` when no element
matches); `hostWikipedia` is `window.location.hostname.includes
('wikipedia.org')`; `strippedBodyText` is the strategy-3 result — visible
text of the body clone after removing the fixed non-content selectors. -/
structure PageDoc where
  selectorText : String → Option String
  hostWikipedia : Bool
  strippedBodyText : String

/-- The fixed ordered selector list of strategy 1 (content script lines
714–724). -/
def mainSelectors : List String :=
  ["main", "article", "[role=\"main\"]", ".main-content", "#main-content",
    "#content", ".content", ".article-content", ".post-content"]

/-- Strategy 1 of `extractMainContent`: probe the selectors in order and
return the first extracted text whose length exceeds 500 (`if
(content.length > 500) return content`). -/
def strategy1 (d : PageDoc) : Option String :=
  mainSelectors.findSome? (fun sel =>
    match d.selectorText sel with
    | some t => if t.length > 500 then some t else none
    | none => none)

/-- Shallow embedding of `extractMainContent` (content script lines
710–761): strategy 1, then the unconditional Wikipedia extraction from
`#mw-content-text` when the host matches, then the stripped-body
fallback. -/
def extractMainContent (d : PageDoc) : String :=
  match strategy1 d with
  | some t => t
  | none =>
    if d.hostWikipedia then
      match d.selectorText "#mw-content-text" with
      | some t => t
      | none => d.strippedBodyText
    else d.strippedBodyText

/-! ## Fixtures for concrete runs -/

/-- Environment where every tab creation throws. -/
def emptyEnv : HarvestEnv where
  createTab := fun _ => .error "no tabs"
  signalBeforeTimeout := fun _ => none

/-- Environment where only the harvest of `"u1"` succeeds. -/
def sampleEnv : HarvestEnv where
  createTab := fun url => if url = "u1" then .ok 1 else .error "nav error"
  signalBeforeTimeout := fun tabId =>
    if tabId = 1 then some ⟨"Title", "hello world", 2⟩ else none

/-- A DuckDuckGo Lite body with two external anchors and no `uddg=`. -/
def anchorHtml : String :=
  "<html><a href=\"https://example.org/a\">Example</a><a href=\"https://other.example/b\">B</a></html>"

/-- A 500-character extraction text. -/
def longText500 : String := String.mk (List.replicate 500 'a')

/-- A 501-character extraction text. -/
def longText501 : String := String.mk (List.replicate 501 'a')

/-- A page whose `main` element yields exactly 500 characters. -/
def doc500 : PageDoc where
  selectorText := fun sel => if sel = "main" then some longText500 else none
  hostWikipedia := false
  strippedBodyText := "body text"

/-- A page whose `main` element yields 501 characters. -/
def doc501 : PageDoc where
  selectorText := fun sel => if sel = "main" then some longText501 else none
  hostWikipedia := false
  strippedBodyText := "body text"

/-! ## Lemmas about the list helpers -/

theorem mem_dedupFirstAux [DecidableEq α] (x : α) :
    ∀ (l seen : List α), x ∈ dedupFirstAux seen l ↔ x ∈ l ∧ x ∉ seen := by
  intro l
  induction l with
  | nil => intro seen; simp [dedupFirstAux]
  | cons a as ih =>
    intro seen
    by_cases ha : a ∈ seen
    · rw [dedupFirstAux, if_pos ha, ih seen]
      constructor
      · rintro ⟨h1, h2⟩
        exact ⟨List.mem_cons_of_mem _ h1, h2⟩
      · rintro ⟨h1, h2⟩
        rcases List.mem_cons.mp h1 with rfl | h1
        · exact absurd ha h2
        · exact ⟨h1, h2⟩
    · rw [dedupFirstAux, if_neg ha]
      constructor
      · intro hx
        rcases List.mem_cons.mp hx with rfl | hx
        · exact ⟨List.mem_cons_self _ _, ha⟩
        · obtain ⟨h1, h2⟩ := (ih (a :: seen)).mp hx
          exact ⟨List.mem_cons_of_mem _ h1,
            fun hs => h2 (List.mem_cons_of_mem _ hs)⟩
      · rintro ⟨h1, h2⟩
        rcases List.mem_cons.mp h1 with rfl | h1
        · exact List.mem_cons_self _ _
        · by_cases hxa : x = a
          · subst hxa
            exact List.mem_cons_self _ _
          · refine List.mem_cons_of_mem _ ((ih (a :: seen)).mpr ⟨h1, ?_⟩)
            intro hx
            rcases List.mem_cons.mp hx with rfl | hx
            · exact hxa rfl
            · exact h2 hx

theorem nodup_dedupFirstAux [DecidableEq α] :
    ∀ (l seen : List α), (dedupFirstAux seen l).Nodup := by
  intro l
  induction l with
  | nil => intro seen; simp [dedupFirstAux]
  | cons a as ih =>
    intro seen
    by_cases ha : a ∈ seen
    · rw [dedupFirstAux, if_pos ha]
      exact ih seen
    · rw [dedupFirstAux, if_neg ha]
      refine List.nodup_cons.mpr ⟨?_, ih (a :: seen)⟩
      intro hmem
      exact ((mem_dedupFirstAux a as (a :: seen)).mp hmem).2
        (List.mem_cons_self _ _)

theorem length_dedupFirstAux_le [DecidableEq α] :
    ∀ (l seen : List α), (dedupFirstAux seen l).length ≤ l.length := by
  intro l
  induction l with
  | nil => intro seen; simp [dedupFirstAux]
  | cons a as ih =>
    intro seen
    by_cases ha : a ∈ seen
    · rw [dedupFirstAux, if_pos ha]
      exact le_trans (ih seen) (Nat.le_succ _)
    · rw [dedupFirstAux, if_neg ha]
      simpa using ih (a :: seen)

theorem firstIdx_dedupFirstAux [DecidableEq α] {u : α} :
    ∀ (l seen : List α), u ∉ seen → u ∈ l →
      firstIdx u (dedupFirstAux seen l) =
        (dedupFirstAux seen (l.take (firstIdx u l))).length := by
  intro l
  induction l with
  | nil => intro seen _ h; cases h
  | cons a as ih =>
    intro seen hseen h
    by_cases ha : a ∈ seen
    · have hne : a ≠ u := fun e => hseen (e ▸ ha)
      have hmem : u ∈ as := by
        rcases List.mem_cons.mp h with rfl | hmem
        · exact absurd ha hseen
        · exact hmem
      rw [dedupFirstAux, if_pos ha]
      simp only [firstIdx, hne, if_false, List.take_succ_cons]
      rw [dedupFirstAux, if_pos ha]
      exact ih seen hseen hmem
    · by_cases hau : a = u
      · subst hau
        rw [dedupFirstAux, if_neg ha]
        simp [firstIdx, dedupFirstAux]
      · have hmem : u ∈ as := by
          rcases List.mem_cons.mp h with rfl | hmem
          · exact absurd rfl hau
          · exact hmem
        have hseen' : u ∉ a :: seen := by
          intro hx
          rcases List.mem_cons.mp hx with rfl | hx
          · exact hau rfl
          · exact hseen hx
        rw [dedupFirstAux, if_neg ha]
        simp only [firstIdx, hau, if_false, List.take_succ_cons]
        rw [dedupFirstAux, if_neg ha]
        simpa using ih (a :: seen) hseen' hmem

theorem mem_dedupFirst [DecidableEq α] (u : α) (l : List α) :
    u ∈ dedupFirst l ↔ u ∈ l := by
  rw [dedupFirst, mem_dedupFirstAux]
  simp

theorem nodup_dedupFirst [DecidableEq α] (l : List α) :
    (dedupFirst l).Nodup :=
  nodup_dedupFirstAux l []

theorem length_dedupFirst_le [DecidableEq α] (l : List α) :
    (dedupFirst l).length ≤ l.length :=
  length_dedupFirstAux_le l []

theorem count_dedupFirst_eq_one [DecidableEq α] {u : α} {l : List α}
    (h : u ∈ l) : (dedupFirst l).count u = 1 :=
  List.count_eq_one_of_mem (nodup_dedupFirst l) ((mem_dedupFirst u l).mpr h)

/-- Position of an element of `dedupFirst l`: it equals the number of
distinct elements occurring strictly before the element's first occurrence
in `l`, formalising "at the position of its first occurrence". -/
theorem firstIdx_dedupFirst [DecidableEq α] {u : α} {l : List α}
    (h : u ∈ l) :
    firstIdx u (dedupFirst l) =
      (dedupFirst (l.take (firstIdx u l))).length :=
  firstIdx_dedupFirstAux l [] (by simp) h

theorem firstIdx_lt_length [DecidableEq α] {u : α} :
    ∀ {l : List α}, u ∈ l → firstIdx u l < l.length := by
  intro l
  induction l with
  | nil => intro h; cases h
  | cons b bs ih =>
    intro h
    by_cases hb : b = u
    · simp [firstIdx, hb]
    · rcases List.mem_cons.mp h with rfl | hmem
      · exact absurd rfl hb
      · simpa [firstIdx, hb] using ih hmem

theorem mem_take_of_firstIdx_lt [DecidableEq α] {u : α} :
    ∀ {l : List α} {k : Nat}, u ∈ l → firstIdx u l < k → u ∈ l.take k := by
  intro l
  induction l with
  | nil => intro k h; cases h
  | cons b bs ih =>
    intro k h hlt
    by_cases hb : b = u
    · subst hb
      cases k with
      | zero => simp [firstIdx] at hlt
      | succ k => simp [List.take_succ_cons]
    · rcases List.mem_cons.mp h with rfl | hmem
      · exact absurd rfl hb
      · cases k with
        | zero => exact absurd hlt (by simp)
        | succ k =>
          simp only [firstIdx, hb, if_false] at hlt
          have hin : u ∈ bs.take k := ih hmem (by omega)
          simpa [List.take_succ_cons] using Or.inr hin

/-- Every occurrence of `u` in `l` sits at an index at least `firstIdx u l`,
so a prefix that ends at or before the first occurrence misses `u`. -/
theorem not_mem_take_of_le_firstIdx [DecidableEq α] {u : α} :
    ∀ {l : List α} {k : Nat}, k ≤ firstIdx u l → u ∉ l.take k := by
  intro l
  induction l with
  | nil => intro k _ h; simp at h
  | cons b bs ih =>
    intro k hle
    cases k with
    | zero => simp
    | succ k =>
      by_cases hb : b = u
      · subst hb
        simp [firstIdx] at hle
      · simp only [firstIdx, hb, if_false] at hle
        rw [List.take_succ_cons]
        intro hmem
        rcases List.mem_cons.mp hmem with rfl | hmem
        · exact hb rfl
        · exact ih (by omega) hmem

/-! ## Lemmas about the cleaning pipeline -/

theorem head?_dropWhile_false (p : Char → Bool) :
    ∀ (l : List Char) (c : Char), (l.dropWhile p).head? = some c →
      p c = false := by
  intro l
  induction l with
  | nil => intro c h; simp at h
  | cons d ds ih =>
    intro c h
    rw [List.dropWhile_cons] at h
    by_cases hd : p d = true
    · rw [if_pos hd] at h
      exact ih c h
    · rw [if_neg hd] at h
      have : d = c := by simpa using h
      subst this
      simpa using hd

theorem dropWhile_eq_self_of_head (p : Char → Bool) (l : List Char)
    (h : ∀ c, l.head? = some c → p c = false) : l.dropWhile p = l := by
  cases l with
  | nil => rfl
  | cons d ds =>
    rw [List.dropWhile_cons, if_neg]
    simp [h d rfl]

theorem head?_collapseWhitespace_false :
    ∀ l : List Char, headIsWs l = false →
      ∀ c, (collapseWhitespace l).head? = some c →
        isJsWhitespace c = false := by
  intro l
  cases l with
  | nil => intro _ c hc; simp [collapseWhitespace] at hc
  | cons d ds =>
    intro hh c hc
    have hd : isJsWhitespace d = false := by simpa [headIsWs] using hh
    rw [collapseWhitespace, if_neg (by simp [hd])] at hc
    have : d = c := by simpa using hc
    subst this
    exact hd

theorem spaceNormal_collapseWhitespace (l : List Char) :
    SpaceNormal (collapseWhitespace l) := by
  induction l with
  | nil => exact ⟨by simp [collapseWhitespace], by simp [collapseWhitespace]⟩
  | cons c cs ih =>
    obtain ⟨ihmem, ihchain⟩ := ih
    by_cases hws : isJsWhitespace c = true
    · by_cases hh : headIsWs cs = true
      · rw [collapseWhitespace, if_pos hws, if_pos hh]
        exact ⟨ihmem, ihchain⟩
      · rw [collapseWhitespace, if_pos hws, if_neg hh]
        constructor
        · intro x hx hxs
          rcases List.mem_cons.mp hx with rfl | hx
          · rfl
          · exact ihmem x hx hxs
        · refine List.chain'_cons'.mpr ⟨?_, ihchain⟩
          intro y hy
          right
          exact head?_collapseWhitespace_false cs (by simpa using hh) y
            (Option.mem_def.mp hy)
    · rw [collapseWhitespace, if_neg hws]
      constructor
      · intro x hx hxs
        rcases List.mem_cons.mp hx with rfl | hx
        · exact absurd hxs (by simpa using hws)
        · exact ihmem x hx hxs
      · refine List.chain'_cons'.mpr ⟨?_, ihchain⟩
        intro y _
        left
        simpa using hws

theorem mem_collapseWhitespace :
    ∀ (l : List Char) (c : Char), c ∈ collapseWhitespace l →
      c = ' ' ∨ (c ∈ l ∧ isJsWhitespace c = false) := by
  intro l
  induction l with
  | nil => intro c h; simp [collapseWhitespace] at h
  | cons d ds ih =>
    intro c h
    by_cases hws : isJsWhitespace d = true
    · by_cases hh : headIsWs ds = true
      · rw [collapseWhitespace, if_pos hws, if_pos hh] at h
        rcases ih c h with h1 | ⟨h1, h2⟩
        · exact Or.inl h1
        · exact Or.inr ⟨List.mem_cons_of_mem _ h1, h2⟩
      · rw [collapseWhitespace, if_pos hws, if_neg hh] at h
        rcases List.mem_cons.mp h with rfl | h
        · exact Or.inl rfl
        · rcases ih c h with h1 | ⟨h1, h2⟩
          · exact Or.inl h1
          · exact Or.inr ⟨List.mem_cons_of_mem _ h1, h2⟩
    · rw [collapseWhitespace, if_neg hws] at h
      rcases List.mem_cons.mp h with rfl | h
      · exact Or.inr ⟨List.mem_cons_self _ _, by simpa using hws⟩
      · rcases ih c h with h1 | ⟨h1, h2⟩
        · exact Or.inl h1
        · exact Or.inr ⟨List.mem_cons_of_mem _ h1, h2⟩

theorem collapseWhitespace_eq_self :
    ∀ {l : List Char}, SpaceNormal l → collapseWhitespace l = l := by
  intro l
  induction l with
  | nil => intro _; rfl
  | cons c cs ih =>
    rintro ⟨hmem, hchain⟩
    obtain ⟨hhead, htail⟩ := List.chain'_cons'.mp hchain
    have htn : SpaceNormal cs :=
      ⟨fun x hx => hmem x (List.mem_cons_of_mem _ hx), htail⟩
    by_cases hws : isJsWhitespace c = true
    · have hc : c = ' ' := hmem c (List.mem_cons_self _ _) hws
      have hh : headIsWs cs = false := by
        cases cs with
        | nil => rfl
        | cons d ds =>
          rcases hhead d rfl with h1 | h1
          · exact absurd hws (by simp [h1])
          · simpa [headIsWs] using h1
      rw [collapseWhitespace, if_pos hws, if_neg (by simp [hh]), ih htn, hc]
    · rw [collapseWhitespace, if_neg hws, ih htn]

theorem mem_collapseDoubleSpaces :
    ∀ (l : List Char) (c : Char), c ∈ collapseDoubleSpaces l →
      c = ' ' ∨ c ∈ l := by
  intro l
  induction l with
  | nil => intro c h; simp [collapseDoubleSpaces] at h
  | cons d ds ih =>
    intro c h
    by_cases hsp : d = ' '
    · by_cases hh : headIsSpace ds = true
      · rw [collapseDoubleSpaces, if_pos hsp, if_pos hh] at h
        rcases ih c h with h1 | h1
        · exact Or.inl h1
        · exact Or.inr (List.mem_cons_of_mem _ h1)
      · rw [collapseDoubleSpaces, if_pos hsp, if_neg hh] at h
        rcases List.mem_cons.mp h with rfl | h
        · exact Or.inl rfl
        · rcases ih c h with h1 | h1
          · exact Or.inl h1
          · exact Or.inr (List.mem_cons_of_mem _ h1)
    · rw [collapseDoubleSpaces, if_neg hsp] at h
      rcases List.mem_cons.mp h with rfl | h
      · exact Or.inr (List.mem_cons_self _ _)
      · rcases ih c h with h1 | h1
        · exact Or.inl h1
        · exact Or.inr (List.mem_cons_of_mem _ h1)

theorem collapseDoubleSpaces_eq_self :
    ∀ {l : List Char}, SpaceNormal l → collapseDoubleSpaces l = l := by
  intro l
  induction l with
  | nil => intro _; rfl
  | cons c cs ih =>
    rintro ⟨hmem, hchain⟩
    obtain ⟨hhead, htail⟩ := List.chain'_cons'.mp hchain
    have htn : SpaceNormal cs :=
      ⟨fun x hx => hmem x (List.mem_cons_of_mem _ hx), htail⟩
    by_cases hsp : c = ' '
    · have hh : headIsSpace cs = false := by
        cases cs with
        | nil => rfl
        | cons d ds =>
          rcases hhead d rfl with h1 | h1
          · rw [hsp] at h1
            exact absurd h1 (by decide)
          · simp only [headIsSpace, decide_eq_false_iff_not]
            intro hd
            rw [hd] at h1
            exact absurd h1 (by decide)
      rw [collapseDoubleSpaces, if_pos hsp, if_neg (by simp [hh]), ih htn,
        hsp]
    · rw [collapseDoubleSpaces, if_neg hsp, ih htn]

theorem mem_jsTrim {c : Char} {l : List Char} (h : c ∈ jsTrim l) : c ∈ l := by
  unfold jsTrim at h
  rw [List.mem_reverse] at h
  have h1 := (List.dropWhile_suffix _).sublist.mem h
  rw [List.mem_reverse] at h1
  exact (List.dropWhile_suffix _).sublist.mem h1

theorem spaceNormal_jsTrim {l : List Char} (h : SpaceNormal l) :
    SpaceNormal (jsTrim l) := by
  obtain ⟨hmem, hchain⟩ := h
  constructor
  · exact fun c hc => hmem c (mem_jsTrim hc)
  · unfold jsTrim
    have h1 : List.Chain' WsApart (l.dropWhile isJsWhitespace) :=
      hchain.suffix (List.dropWhile_suffix _)
    have h2 : List.Chain' WsApart (l.dropWhile isJsWhitespace).reverse :=
      List.chain'_reverse.mpr (h1.imp (fun a b hab => Or.symm hab))
    have h3 := h2.suffix
      (List.dropWhile_suffix (p := isJsWhitespace)
        (l := (l.dropWhile isJsWhitespace).reverse))
    exact List.chain'_reverse.mpr (h3.imp (fun a b hab => Or.symm hab))

theorem jsTrim_getLast?_false (l : List Char) :
    ∀ c, (jsTrim l).getLast? = some c → isJsWhitespace c = false := by
  intro c h
  unfold jsTrim at h
  rw [List.getLast?_reverse] at h
  exact head?_dropWhile_false _ _ c h

theorem jsTrim_head?_false (l : List Char) :
    ∀ c, (jsTrim l).head? = some c → isJsWhitespace c = false := by
  intro c h
  unfold jsTrim at h
  rw [List.head?_reverse] at h
  obtain ⟨t, ht⟩ := List.dropWhile_suffix
    (p := isJsWhitespace) (l := (l.dropWhile isJsWhitespace).reverse)
  have hlast : (l.dropWhile isJsWhitespace).reverse.getLast? = some c := by
    rw [← ht, List.getLast?_append, h]
    rfl
  rw [List.getLast?_reverse] at hlast
  exact head?_dropWhile_false _ _ c hlast

theorem jsTrim_eq_self (l : List Char)
    (hh : ∀ c, l.head? = some c → isJsWhitespace c = false)
    (hl : ∀ c, l.getLast? = some c → isJsWhitespace c = false) :
    jsTrim l = l := by
  unfold jsTrim
  rw [dropWhile_eq_self_of_head _ _ hh]
  rw [dropWhile_eq_self_of_head _ _
    (fun c hc => hl c (by rwa [List.head?_reverse] at hc))]
  exact List.reverse_reverse l

theorem removeControlChars_eq_self {l : List Char}
    (h : ∀ c ∈ l, isRemovedControl c = false) : removeControlChars l = l :=
  List.filter_eq_self.mpr (fun a ha => by simp [h a ha])

/-- On control-free input, `cleanText` reduces to trim-after-collapse: the
double-space pass and the control-character pass are both identities there. -/
theorem cleanText_eq_of_no_control {s : String}
    (h : ∀ c ∈ s.data, isRemovedControl c = false) :
    cleanText s = String.mk (jsTrim (collapseWhitespace s.data)) := by
  unfold cleanText
  rw [collapseDoubleSpaces_eq_self (spaceNormal_collapseWhitespace s.data)]
  rw [removeControlChars_eq_self]
  intro c hc
  rcases mem_collapseWhitespace s.data c (mem_jsTrim hc) with rfl | ⟨hmem, _⟩
  · decide
  · exact h c hmem

/-! ## Lemmas about the uddg scanner -/

theorem scanUddgAux_eq_nil (fuel : Nat) :
    ∀ l : List Char, (∀ t, t <:+ l → uddgKeyAt t = false) →
      scanUddgAux fuel l = [] := by
  induction fuel with
  | zero =>
    intro l _
    cases l <;> rfl
  | succ fuel ih =>
    intro l h
    cases l with
    | nil => rfl
    | cons c rest =>
      rw [scanUddgAux, if_neg (by simp [h _ (List.suffix_refl _)])]
      exact ih rest (fun t ht => h t (ht.trans (List.suffix_cons c rest)))

/-! ## Helper lemmas about harvesting -/

theorem length_filterMap_add_length_none (f : α → Option β) :
    ∀ l : List α,
      (l.filterMap f).length +
        (l.filter (fun a => (f a).isNone)).length = l.length := by
  intro l
  induction l with
  | nil => rfl
  | cons a as ih =>
    cases hfa : f a with
    | none =>
      rw [List.filterMap_cons_none hfa,
        List.filter_cons_of_pos (by simp [hfa])]
      simp only [List.length_cons]
      omega
    | some b =>
      rw [List.filterMap_cons_some hfa,
        List.filter_cons_of_neg (by simp [hfa])]
      simp only [List.length_cons]
      omega

theorem harvestResult_url (env : HarvestEnv) (now : Nat) (url : String)
    (s : Source) (h : (harvestResult env now url).toOption = some s) :
    s.url = url := by
  rcases hc : env.createTab url with e | tabId
  · simp [harvestResult, openAndExtractContent, hc, Except.toOption] at h
  · rcases hs : env.signalBeforeTimeout tabId with _ | data
    · simp [harvestResult, openAndExtractContent, hc, hs,
        Except.toOption] at h
    · simp only [harvestResult, openAndExtractContent, hc, hs,
        Except.toOption, Option.some.injEq] at h
      rw [← h]

theorem sources_map_url (env : HarvestEnv) (now : Nat) :
    ∀ urls : List String,
      ((urls.filterMap
        (fun u => (harvestResult env now u).toOption)).map (fun s => s.url)) =
        urls.filter (fun u => harvestSucceeds env now u) := by
  intro urls
  induction urls with
  | nil => rfl
  | cons u us ih =>
    cases h : (harvestResult env now u).toOption with
    | none =>
      have hsuc : harvestSucceeds env now u = false := by
        simp [harvestSucceeds, h]
      simp [List.filterMap_cons, List.filter_cons, h, hsuc, ih]
    | some s =>
      have hsuc : harvestSucceeds env now u = true := by
        simp [harvestSucceeds, h]
      simp [List.filterMap_cons, List.filter_cons, h, hsuc, ih,
        harvestResult_url env now u s h]

/-! ## Claims -/

/-- C1: for every pair of backend URL sequences and every page budget `k`,
the aggregated URL sequence produced before harvesting has length at most
`k`, and the `sources` list of the resulting SearchResult has length at
most `k` (in particular at most `MAX_PAGES_PER_SEARCH` for the code's
fixed budget). -/
theorem C1_budget_invariant (wiki ddg : List String) (k : Nat)
    (env : HarvestEnv) (q id : String) (now : Nat) :
    (aggregateUrls wiki ddg k).length ≤ k ∧
    (handleSearchRequestWith k wiki ddg env q id now).results.sources.length
      ≤ k ∧
    (handleSearchRequest wiki ddg env q id now).results.sources.length
      ≤ MAX_PAGES_PER_SEARCH := by
  refine ⟨?_, ?_, ?_⟩
  · rw [aggregateUrls, List.length_take]
    omega
  · exact le_trans
      (List.length_filterMap_le _ _)
      (by rw [List.length_take]; omega)
  · exact le_trans
      (List.length_filterMap_le _ _)
      (by rw [List.length_take]; omega)

/-- C2 counterexample: with backend lists `["u1","u2","u3","x"]` and
`["x"]` and the code's budget 3, the shared URL `"x"` is a member of both
inputs yet appears zero times in the aggregated (budget-truncated)
sequence, so "appears exactly once" fails as stated. -/
theorem C2_counterexample :
    "x" ∈ ["u1", "u2", "u3", "x"] ∧ "x" ∈ ["x"] ∧
    (aggregateUrls ["u1", "u2", "u3", "x"] ["x"]
      MAX_PAGES_PER_SEARCH).count "x" = 0 := by
  decide

/-- C2 (amended): the merge concatenates in adapter-call order, removes
duplicates keeping the first occurrence and truncates to the budget; a URL
present in both inputs appears exactly once in the deduplicated
concatenation, at the position of its first occurrence (the number of
distinct URLs before it); after truncation it appears at most once, and
exactly once iff that position is within the budget. -/
theorem C2_merge_dedup_position (a b : List String) (u : String)
    (ha : u ∈ a) (_hb : u ∈ b) (k : Nat) :
    (dedupFirst (a ++ b)).count u = 1 ∧
    firstIdx u (dedupFirst (a ++ b)) =
      (dedupFirst ((a ++ b).take (firstIdx u (a ++ b)))).length ∧
    (aggregateUrls a b k).count u ≤ 1 ∧
    ((aggregateUrls a b k).count u = 1 ↔
      firstIdx u (dedupFirst (a ++ b)) < k) := by
  have hm : u ∈ a ++ b := List.mem_append.mpr (Or.inl ha)
  have hnodup : (aggregateUrls a b k).Nodup :=
    (nodup_dedupFirst (a ++ b)).sublist (List.take_sublist k _)
  refine ⟨count_dedupFirst_eq_one hm, firstIdx_dedupFirst hm, ?_, ?_, ?_⟩
  · exact List.nodup_iff_count_le_one.mp hnodup u
  · intro hcount
    by_contra hpos
    have hnot : u ∉ (dedupFirst (a ++ b)).take k :=
      not_mem_take_of_le_firstIdx (by omega)
    have h0 : (aggregateUrls a b k).count u = 0 :=
      List.count_eq_zero.mpr hnot
    omega
  · intro hlt
    exact List.count_eq_one_of_mem hnodup
      (mem_take_of_firstIdx_lt ((mem_dedupFirst u _).mpr hm) hlt)

/-- C2 witness: the amended statement evaluated at `a = ["u","v"]`,
`b = ["w","u"]`, `u = "u"`, `k = 3`. -/
theorem C2_merge_dedup_position_witness :
    (dedupFirst (["u", "v"] ++ ["w", "u"])).count "u" = 1 ∧
    firstIdx "u" (dedupFirst (["u", "v"] ++ ["w", "u"])) =
      (dedupFirst ((["u", "v"] ++ ["w", "u"]).take
        (firstIdx "u" (["u", "v"] ++ ["w", "u"])))).length ∧
    (aggregateUrls ["u", "v"] ["w", "u"] 3).count "u" ≤ 1 ∧
    ((aggregateUrls ["u", "v"] ["w", "u"] 3).count "u" = 1 ↔
      firstIdx "u" (dedupFirst (["u", "v"] ++ ["w", "u"])) < 3) :=
  C2_merge_dedup_position ["u", "v"] ["w", "u"] "u" (by decide) (by decide) 3

/-- C3: a run that harvests `N` aggregated URLs of which `k` fail (timeout
or navigation error) still returns `success = true` with status
`completed` and exactly `N - k` sources; with all harvests failed the
`sources` list is empty. -/
theorem C3_partial_failure_tolerance (wiki ddg : List String)
    (env : HarvestEnv) (q id : String) (now : Nat) :
    let r := handleSearchRequest wiki ddg env q id now
    let urls := aggregateUrls wiki ddg MAX_PAGES_PER_SEARCH
    let failed := urls.filter (fun u => !(harvestSucceeds env now u))
    r.success = true ∧ r.results.status = "completed" ∧
    r.results.sources.length = urls.length - failed.length ∧
    (failed.length = urls.length → r.results.sources = []) := by
  intro r urls failed
  have hfilter : failed =
      urls.filter (fun u => ((harvestResult env now u).toOption).isNone) := by
    apply List.filter_congr
    intro u _
    simp only [harvestSucceeds]
    cases (harvestResult env now u).toOption <;> rfl
  have hlen : r.results.sources.length + failed.length = urls.length := by
    rw [hfilter]
    exact length_filterMap_add_length_none _ urls
  refine ⟨rfl, rfl, by omega, ?_⟩
  intro hall
  have : r.results.sources.length = 0 := by omega
  exact List.length_eq_zero.mp this

/-- C3 witness: with one aggregated URL whose tab creation throws, every
harvest fails and the theorem yields the empty `sources` list. -/
theorem C3_partial_failure_tolerance_witness :
    ((aggregateUrls ["u9"] [] MAX_PAGES_PER_SEARCH).filter
      (fun u => !(harvestSucceeds emptyEnv 0 u))).length =
      (aggregateUrls ["u9"] [] MAX_PAGES_PER_SEARCH).length ∧
    (handleSearchRequest ["u9"] [] emptyEnv "q" "id" 0).results.sources
      = [] :=
  ⟨by decide,
    (C3_partial_failure_tolerance ["u9"] [] emptyEnv "q" "id" 0).2.2.2
      (by decide)⟩

/-- C4 counterexample: an HTML body with external anchors and no `uddg=`
occurrence yields the empty URL list — there is no anchor-scanning
fallback, so Adapter B's result is not "non-empty when such anchors
exist". -/
theorem C4_counterexample :
    listContainsSub ("<a href=\"http").data anchorHtml.data = true ∧
    hasUddgKey anchorHtml = false ∧
    extractUrlsFromDDGLite anchorHtml = [] ∧
    searchDuckDuckGo true anchorHtml = [] := by
  decide

/-- C4 (amended): `extractUrlsFromDDGLite` implements only the
redirect-parameter strategy: whenever the body contains no
(case-insensitive) `uddg=` occurrence the extraction — and hence Adapter
B's whole result — is empty, regardless of any anchors present. -/
theorem C4_no_anchor_fallback (ok : Bool) (html : String)
    (h : hasUddgKey html = false) :
    extractUrlsFromDDGLite html = [] ∧ searchDuckDuckGo ok html = [] := by
  have hall : ∀ t, t <:+ html.data → uddgKeyAt t = false := by
    intro t ht
    by_contra hc
    have hkey : uddgKeyAt t = true := by
      cases hval : uddgKeyAt t
      · exact absurd hval hc
      · rfl
    have : html.data.tails.any uddgKeyAt = true :=
      List.any_eq_true.mpr ⟨t, (List.mem_tails _ _).mpr ht, hkey⟩
    rw [hasUddgKey] at h
    rw [h] at this
    cases this
  have hscan : scanUddg html.data = [] := scanUddgAux_eq_nil _ _ hall
  have hurls : extractUrlsFromDDGLite html = [] := by
    rw [extractUrlsFromDDGLite, hscan]
    rfl
  refine ⟨hurls, ?_⟩
  rw [searchDuckDuckGo]
  cases ok
  · rfl
  · rw [if_pos rfl, hurls]
    rfl

/-- C4 witness: the amended statement evaluated on `anchorHtml`. -/
theorem C4_no_anchor_fallback_witness :
    hasUddgKey anchorHtml = false ∧
    extractUrlsFromDDGLite anchorHtml = [] ∧
    searchDuckDuckGo true anchorHtml = [] :=
  ⟨by decide,
    (C4_no_anchor_fallback true anchorHtml (by decide)).1,
    (C4_no_anchor_fallback true anchorHtml (by decide)).2⟩

/-- C5 counterexample: a finalized run has status `completed` but its
`completedAt` field is absent (`none`) — the code never writes it. -/
theorem C5_counterexample :
    (handleSearchRequest [] [] emptyEnv "q" "s1" 42).results.status =
      "completed" ∧
    (handleSearchRequest [] [] emptyEnv "q" "s1" 42).results.completedAt =
      none :=
  ⟨rfl, rfl⟩

/-- C5 (amended): once all harvest attempts have settled the returned
SearchResult has status `completed` and its `timestamp` field records the
finalization time; no `completedAt` field is set. -/
theorem C5_finalization_shape (budget : Nat) (wiki ddg : List String)
    (env : HarvestEnv) (q id : String) (now : Nat) :
    let r := handleSearchRequestWith budget wiki ddg env q id now
    r.results.status = "completed" ∧ r.results.timestamp = now ∧
    r.results.completedAt = none :=
  ⟨rfl, rfl, rfl⟩

/-- C6 counterexample: with six distinct backend URLs, SEARCH_ONLY returns
all six (no truncation to the page budget 3); moreover a URL produced by
the DuckDuckGo backend is labelled `wikipedia` because the label comes
from a substring test on the URL, not from the producing backend. -/
theorem C6_counterexample :
    (handleSearchOnly ["u1", "u2", "u3"] ["v1", "v2", "v3"]
      "s").results.length = 6 ∧
    ¬((handleSearchOnly ["u1", "u2", "u3"] ["v1", "v2", "v3"]
      "s").results.length ≤ MAX_PAGES_PER_SEARCH) ∧
    ((handleSearchOnly [] ["https://es.wikipedia.org/wiki/X"]
      "s").results.map (fun item => item.source)) = ["wikipedia"] := by
  decide

/-- C6 (amended): SEARCH_ONLY runs the same fan-out and dedup as a full
run but does not truncate to the page budget: it returns the full
deduplicated URL list (bounded only by the combined backend list
lengths), each annotated with `wikipedia` exactly when the URL contains
the substring `wikipedia`, else `duckduckgo`. -/
theorem C6_search_only_shape (wiki ddg : List String) (id : String) :
    (handleSearchOnly wiki ddg id).success = true ∧
    (handleSearchOnly wiki ddg id).results.map (fun item => item.url) =
      dedupFirst (wiki ++ ddg) ∧
    (handleSearchOnly wiki ddg id).results.length ≤
      wiki.length + ddg.length ∧
    (handleSearchOnly wiki ddg id).results.map (fun item => item.source) =
      (dedupFirst (wiki ++ ddg)).map
        (fun u => if strContains u "wikipedia" then "wikipedia"
                  else "duckduckgo") := by
  refine ⟨rfl, ?_, ?_, ?_⟩
  · simp only [handleSearchOnly, List.map_map]
    exact List.map_id'' (fun u => rfl) _
  · simpa [handleSearchOnly] using
      le_trans (length_dedupFirst_le (wiki ++ ddg))
        (le_of_eq (List.length_append _ _))
  · simp only [handleSearchOnly, List.map_map]
    rfl

/-- C7 counterexample: `cleanText` is not idempotent — on
`"a \x00 b"` the control character is removed only after whitespace
collapsing, leaving a double space that a second application collapses. -/
theorem C7_counterexample :
    cleanText (cleanText (String.mk ['a', ' ', Char.ofNat 0, ' ', 'b'])) ≠
      cleanText (String.mk ['a', ' ', Char.ofNat 0, ' ', 'b']) := by
  decide

/-- C7 (amended): `cleanText` is idempotent on every input containing no
character of the removed control class (`\x00-\x08`, `\x0B`, `\x0C`,
`\x0E-\x1F`, `\x7F`); inputs with such characters can expose new double
spaces because control removal runs after collapsing and trimming. -/
theorem C7_cleanText_idempotent_on_control_free (s : String)
    (h : ∀ c ∈ s.data, isRemovedControl c = false) :
    cleanText (cleanText s) = cleanText s := by
  have hB := cleanText_eq_of_no_control h
  have hnorm : SpaceNormal (jsTrim (collapseWhitespace s.data)) :=
    spaceNormal_jsTrim (spaceNormal_collapseWhitespace s.data)
  have hctl : ∀ c ∈ jsTrim (collapseWhitespace s.data),
      isRemovedControl c = false := by
    intro c hc
    rcases mem_collapseWhitespace s.data c (mem_jsTrim hc) with rfl | ⟨hm, _⟩
    · decide
    · exact h c hm
  rw [hB, cleanText,
    show (String.mk (jsTrim (collapseWhitespace s.data))).data =
      jsTrim (collapseWhitespace s.data) from rfl,
    collapseWhitespace_eq_self hnorm, collapseDoubleSpaces_eq_self hnorm,
    jsTrim_eq_self _ (jsTrim_head?_false (collapseWhitespace s.data))
      (jsTrim_getLast?_false (collapseWhitespace s.data)),
    removeControlChars_eq_self hctl]

/-- C7 witness: the amended statement evaluated on `"a  b\n!"`. -/
theorem C7_cleanText_idempotent_on_control_free_witness :
    (∀ c ∈ ("a  b\n!" : String).data, isRemovedControl c = false) ∧
    cleanText (cleanText "a  b\n!") = cleanText "a  b\n!" :=
  ⟨by decide, C7_cleanText_idempotent_on_control_free "a  b\n!" (by decide)⟩

set_option maxRecDepth 4000 in
/-- C8 counterexample: a `main` element yielding exactly 500 characters is
rejected by strategy 1 (the code tests `content.length > 500`), and the
extractor falls through to the stripped-body fallback. -/
theorem C8_counterexample :
    longText500.length = 500 ∧
    doc500.selectorText "main" = some longText500 ∧
    extractMainContent doc500 = "body text" := by
  refine ⟨by decide, rfl, ?_⟩
  decide

/-- C8 (amended): strategy 1 accepts the first probed selector whose
extracted text has length strictly greater than 500; a text of exactly
500 characters (or fewer) is rejected, and when no other selector matches
on a non-Wikipedia host the stripped-body fallback is returned. -/
theorem C8_strategy1_strict_threshold (d : PageDoc) (t : String)
    (hm : d.selectorText "main" = some t) :
    (t.length > 500 → extractMainContent d = t) ∧
    (t.length ≤ 500 →
      (∀ sel ∈ mainSelectors, sel ≠ "main" → d.selectorText sel = none) →
      d.hostWikipedia = false →
      extractMainContent d = d.strippedBodyText) := by
  constructor
  · intro hgt
    simp [extractMainContent, strategy1, mainSelectors, hm, hgt]
  · intro hle hnone hwiki
    have h1 := hnone "article" (by decide) (by decide)
    have h2 := hnone "[role=\"main\"]" (by decide) (by decide)
    have h3 := hnone ".main-content" (by decide) (by decide)
    have h4 := hnone "#main-content" (by decide) (by decide)
    have h5 := hnone "#content" (by decide) (by decide)
    have h6 := hnone ".content" (by decide) (by decide)
    have h7 := hnone ".article-content" (by decide) (by decide)
    have h8 := hnone ".post-content" (by decide) (by decide)
    have hnotgt : ¬(t.length > 500) := by omega
    simp [extractMainContent, strategy1, mainSelectors, hm, hnotgt,
      h1, h2, h3, h4, h5, h6, h7, h8, hwiki]

set_option maxRecDepth 4000 in
/-- C8 witness: a 501-character `main` text is accepted by strategy 1. -/
theorem C8_strategy1_strict_threshold_witness :
    doc501.selectorText "main" = some longText501 ∧
    extractMainContent doc501 = longText501 :=
  ⟨rfl,
    (C8_strategy1_strict_threshold doc501 longText501 rfl).1 (by decide)⟩

/-- C9 counterexample: on the exit path where opening the browsing context
itself throws, zero tabs are created and zero are discarded, so "exactly
one context is created" does not hold on every exit path. -/
theorem C9_counterexample :
    (openAndExtractContent emptyEnv 0 "https://example.org").createdTabs
      = [] ∧
    (openAndExtractContent emptyEnv 0 "https://example.org").removedTabs
      = [] ∧
    (openAndExtractContent emptyEnv 0 "https://example.org").outcome
      = .error "no tabs" :=
  ⟨rfl, rfl, rfl⟩

/-- C9 (amended): on every exit path of a harvest attempt the discarded
tabs are exactly the created tabs — no context is leaked and none is
discarded that the attempt did not create; exactly one tab is created and
discarded whenever the context opens (success or timeout), and zero when
opening itself throws. -/
theorem C9_tab_balance (env : HarvestEnv) (now : Nat) (url : String) :
    (openAndExtractContent env now url).removedTabs =
      (openAndExtractContent env now url).createdTabs ∧
    (openAndExtractContent env now url).createdTabs.length =
      (match env.createTab url with | .ok _ => 1 | .error _ => 0) := by
  rcases hc : env.createTab url with e | tabId
  · exact ⟨by simp [openAndExtractContent, hc],
      by simp [openAndExtractContent, hc]⟩
  · rcases hs : env.signalBeforeTimeout tabId with _ | data
    · exact ⟨by simp [openAndExtractContent, hc, hs],
        by simp [openAndExtractContent, hc, hs]⟩
    · exact ⟨by simp [openAndExtractContent, hc, hs],
        by simp [openAndExtractContent, hc, hs]⟩

/-- C10: the `sources` of a completed run list the successfully harvested
URLs in exactly the aggregated-sequence order: mapping `url` over
`sources` equals filtering the aggregated URL list by harvest success, and
is in particular an order-preserving sublist of the aggregated list. -/
theorem C10_sources_order (wiki ddg : List String) (env : HarvestEnv)
    (q id : String) (now : Nat) :
    let r := handleSearchRequest wiki ddg env q id now
    let urls := aggregateUrls wiki ddg MAX_PAGES_PER_SEARCH
    r.results.sources.map (fun s => s.url) =
      urls.filter (fun u => harvestSucceeds env now u) ∧
    List.Sublist (r.results.sources.map (fun s => s.url)) urls := by
  intro r urls
  have h1 : r.results.sources.map (fun s => s.url) =
      urls.filter (fun u => harvestSucceeds env now u) :=
    sources_map_url env now urls
  exact ⟨h1, h1 ▸ List.filter_sublist urls⟩

end EdgeAI
